import Mathlib

/-!
Verification development for the HelpFlow triage assistant.

The definitions below are a shallow embedding of the repository's audio
codec (geminiService: createPcmBlob, encodeBase64, decodeBase64,
decodeAudioData), the playback scheduler and session teardown logic of
App.tsx, and the triage request/response handling of geminiService.
Floating-point samples are modelled as rationals (every operation the
code performs on them - scaling by a power of two, truncation, division
by a power of two - is exact in binary floating point, so the rational
model is faithful); JavaScript machine integers are modelled as Nat/Int
with explicit truncation and modular wrap.
-/

/-- Truncation toward zero of a rational, as performed by JavaScript
ToInteger (step 3 of ToInt16) on a finite number. -/
def truncQ (q : ℚ) : ℤ := if 0 ≤ q then ⌊q⌋ else ⌈q⌉

/-- Wrap an integer into the signed 16-bit range, as performed by the
JavaScript ToInt16 coercion applied on assignment into an Int16Array:
the integer is reduced modulo 2^16 into [-2^15, 2^15). -/
def wrap16 (n : ℤ) : ℤ := (n + 32768) % 65536 - 32768

/-- The per-sample conversion of createPcmBlob (geminiService line 133):
int16[i] = data[i] * 32768, i.e. scale by 32768, truncate toward zero,
wrap into 16-bit signed range. -/
def toInt16 (x : ℚ) : ℤ := wrap16 (truncQ (x * 32768))

/-- Little-endian byte pair of a signed 16-bit value, as produced by
viewing the Int16Array buffer through a Uint8Array
(geminiService line 136). -/
def int16ToBytes (v : ℤ) : List ℕ :=
  [(v % 65536).toNat % 256, (v % 65536).toNat / 256]

/-- The raw PCM byte stream createPcmBlob builds before base64 encoding:
each sample through toInt16, packed little-endian. -/
def pcmBytesOf (data : List ℚ) : List ℕ :=
  (data.map (fun x => int16ToBytes (toInt16 x))).flatten

/-- Reinterpret a little-endian byte stream as signed 16-bit integers,
as done by new Int16Array(data.buffer) in decodeAudioData
(geminiService line 109); a trailing odd byte is dropped, as the
Int16Array length is floor(bytes/2). -/
def bytesToInt16s : List ℕ → List ℤ
  | b0 :: b1 :: rest =>
      (if b0 + 256 * b1 < 32768 then ((b0 + 256 * b1 : ℕ) : ℤ)
       else ((b0 + 256 * b1 : ℕ) : ℤ) - 65536) :: bytesToInt16s rest
  | _ => []

/-- decodeAudioData (geminiService lines 103-120): reinterpret the bytes
as int16, de-interleave by channel, rescale each value by 1/32768.
The returned AudioBuffer is modelled as its channel-major sample data;
the sample-rate argument only tags the buffer and does not affect the
samples, so it is omitted. -/
def decodeAudioData (bytes : List ℕ) (numChannels : ℕ) : List (List ℚ) :=
  let ints := bytesToInt16s bytes
  let frameCount := ints.length / numChannels
  (List.range numChannels).map (fun ch =>
    (List.range frameCount).map (fun i =>
      ((ints.getD (i * numChannels + ch) 0 : ℤ) : ℚ) / 32768))

/-- The base64 alphabet used by btoa/atob (RFC 4648). -/
def base64Alphabet : List Char :=
  "ABCDEFGHIJKLMNOPQRSTUVWXYZabcdefghijklmnopqrstuvwxyz0123456789+/".toList

/-- First index of a character in a list (JavaScript String.indexOf). -/
def charIdx (c : Char) : List Char → Option ℕ
  | [] => none
  | a :: rest => if a = c then some 0 else (charIdx c rest).map (· + 1)

/-- Character for a six-bit group. -/
def sextetChar (n : ℕ) : Char := base64Alphabet.getD n 'A'

/-- Six-bit group for a character, none if not in the alphabet. -/
def charSextet (c : Char) : Option ℕ := charIdx c base64Alphabet

/-- encodeBase64 (geminiService lines 122-128): the byte-to-binary-string
loop followed by btoa, i.e. standard base64 with '=' padding, modelled
at the byte level. -/
def encodeBase64 : List ℕ → List Char
  | b0 :: b1 :: b2 :: rest =>
      sextetChar ((b0 * 65536 + b1 * 256 + b2) / 262144) ::
      sextetChar ((b0 * 65536 + b1 * 256 + b2) / 4096 % 64) ::
      sextetChar ((b0 * 65536 + b1 * 256 + b2) / 64 % 64) ::
      sextetChar ((b0 * 65536 + b1 * 256 + b2) % 64) ::
      encodeBase64 rest
  | [b0, b1] =>
      [sextetChar ((b0 * 256 + b1) / 1024), sextetChar ((b0 * 256 + b1) / 16 % 64),
       sextetChar ((b0 * 256 + b1) % 16 * 4), '=']
  | [b0] =>
      [sextetChar (b0 / 4), sextetChar (b0 % 4 * 16), '=', '=']
  | [] => []

/-- decodeBase64 (geminiService lines 94-101): atob followed by the
charCodeAt loop, i.e. base64 text back to its byte sequence, modelled at
the byte level for canonical padded base64 (the only shape this
repository ever feeds it); none models the DOMException atob throws on
other input. -/
def decodeBase64 : List Char → Option (List ℕ)
  | c0 :: c1 :: c2 :: c3 :: rest => do
      let s0 ← charSextet c0
      let s1 ← charSextet c1
      if c2 = '=' then
        if c3 = '=' ∧ rest = [] then pure [(s0 * 64 + s1) / 16] else none
      else do
        let s2 ← charSextet c2
        if c3 = '=' then
          if rest = [] then
            pure [(s0 * 4096 + s1 * 64 + s2) / 1024, (s0 * 4096 + s1 * 64 + s2) / 4 % 256]
          else none
        else do
          let s3 ← charSextet c3
          let ds ← decodeBase64 rest
          pure ([(s0 * 262144 + s1 * 4096 + s2 * 64 + s3) / 65536,
                 (s0 * 262144 + s1 * 4096 + s2 * 64 + s3) / 256 % 256,
                 (s0 * 262144 + s1 * 4096 + s2 * 64 + s3) % 256] ++ ds)
  | [] => some []
  | _ => none

/-- The blob structure createPcmBlob returns (geminiService
lines 130-139). -/
structure PcmBlob where
  data : List Char
  mimeType : String
deriving DecidableEq

/-- createPcmBlob (geminiService lines 130-139). -/
def createPcmBlob (data : List ℚ) : PcmBlob :=
  { data := encodeBase64 (pcmBytesOf data), mimeType := "audio/pcm;rate=16000" }

/-- The inbound-audio pipeline of App.tsx line 121 applied to the wire
bytes produced from s: decodeAudioData(decodeBase64(blob.data), ctx,
24000, 1), projected to the single channel. -/
def audioRoundTrip (s : List ℚ) : List ℚ :=
  (decodeAudioData ((decodeBase64 (createPcmBlob s).data).getD []) 1).headD []

/-- Duration in seconds of the playback buffer decoded from an inbound
wire chunk: frameCount / sampleRate at 24 kHz mono
(AudioBuffer.duration for the buffer built in decodeAudioData). -/
def chunkDuration (bytes : List ℕ) : ℚ := ((bytesToInt16s bytes).length : ℚ) / 24000

/-- State owned by the playback scheduler in App.tsx: the
nextStartTimeRef cursor, the activeSourcesRef set (modelled as the list
of live handles, each handle a serial number), the set of handles on
which stop() has been called, and the next fresh handle. -/
structure SchedulerState where
  nextStartTime : ℚ
  activeBuffers : List ℕ
  stoppedBuffers : List ℕ
  nextHandle : ℕ
deriving DecidableEq

/-- The audio-chunk branch of the onmessage handler (App.tsx
lines 116-129): the cursor is clamped to max(nextStartTime,
deviceCurrentTime), the decoded buffer is started at that time, the
cursor advances by the buffer's duration, and the handle joins the
active set.  Returns the assigned start time with the new state. -/
def scheduleChunk (deviceTime : ℚ) (bytes : List ℕ) (s : SchedulerState) :
    ℚ × SchedulerState :=
  let start := max s.nextStartTime deviceTime
  (start,
   { nextStartTime := start + chunkDuration bytes,
     activeBuffers := s.nextHandle :: s.activeBuffers,
     stoppedBuffers := s.stoppedBuffers,
     nextHandle := s.nextHandle + 1 })

/-- The onended completion callback (App.tsx line 125): the finished
handle leaves the active set. -/
def bufferEnded (h : ℕ) (s : SchedulerState) : SchedulerState :=
  { s with activeBuffers := s.activeBuffers.erase h }

/-- The interrupted branch of the onmessage handler (App.tsx
lines 131-135): stop every active source, clear the set, reset the
cursor to zero. -/
def interrupt (s : SchedulerState) : SchedulerState :=
  { s with nextStartTime := 0,
           activeBuffers := [],
           stoppedBuffers := s.stoppedBuffers ++ s.activeBuffers }

/-- Run a sequence of inbound audio chunks (device-clock arrival time
paired with wire bytes) through scheduleChunk, collecting each assigned
start time with the buffer's duration. -/
def schedRun (s : SchedulerState) : List (ℚ × List ℕ) → List (ℚ × ℚ)
  | [] => []
  | (t, bytes) :: rest =>
      let r := scheduleChunk t bytes s
      (r.1, chunkDuration bytes) :: schedRun r.2 rest

/-- Start times and durations as a function of the cursor alone
(the start-time component of schedRun). -/
def schedStarts (st : ℚ) : List (ℚ × List ℕ) → List (ℚ × ℚ)
  | [] => []
  | (t, bytes) :: rest =>
      (max st t, chunkDuration bytes) ::
      schedStarts (max st t + chunkDuration bytes) rest

/-- Every chunk of the list arrives while the cursor (the finish time of
the audio scheduled so far) is still ahead of the device clock. -/
def notStalledFrom (st : ℚ) : List (ℚ × List ℕ) → Bool
  | [] => true
  | (t, bytes) :: rest =>
      decide (t ≤ st) && notStalledFrom (max st t + chunkDuration bytes) rest

/-- Arrivals are not stalled: every chunk after the first arrives before
the previously scheduled audio has finished. -/
def arrivalsNotStalled (st : ℚ) : List (ℚ × List ℕ) → Bool
  | [] => true
  | (t, bytes) :: rest => notStalledFrom (max st t + chunkDuration bytes) rest

/-- A release step performed by stopLiveTriage (App.tsx lines 146-159). -/
inductive ReleaseAction where
  | stopTracks
  | closeInputCtx
  | closeOutputCtx
  | closeSession
deriving DecidableEq

/-- The resource refs stopLiveTriage guards on: streamRef,
audioContextsRef (one ref holding both contexts), sessionRef.  Each
field records whether the ref currently holds a live resource. -/
structure LiveRefs where
  stream : Bool
  audioContexts : Bool
  session : Bool
deriving DecidableEq

/-- The release phase of stopLiveTriage (App.tsx lines 146-159): each
ref is null-checked; if live, its resource is released (tracks stopped,
input then output context closed, session closed) and the ref nulled.
Returns the new refs and the list of release actions performed, in
order. -/
def stopLiveRelease (r : LiveRefs) : LiveRefs × List ReleaseAction :=
  (⟨false, false, false⟩,
   (if r.stream then [ReleaseAction.stopTracks] else []) ++
   (if r.audioContexts then [ReleaseAction.closeInputCtx, ReleaseAction.closeOutputCtx] else []) ++
   (if r.session then [ReleaseAction.closeSession] else []))

/-- Characters removed by JavaScript String.prototype.trim (ECMAScript
WhiteSpace and LineTerminator). -/
def isJsTrimWs (c : Char) : Bool :=
  c = ' ' || c = '\t' || c = '\n' || c = '\r' || c = '\x0b' || c = '\x0c' ||
  c = ' ' || c = ' ' || c = ' ' || c = ' ' || c = ' ' ||
  c = ' ' || c = ' ' || c = ' ' || c = ' ' || c = ' ' ||
  c = ' ' || c = ' ' || c = ' ' || c = ' ' || c = ' ' ||
  c = ' ' || c = ' ' || c = '　' || c = '﻿'

/-- JavaScript String.prototype.trim on a character list. -/
def jsTrim (cs : List Char) : List Char :=
  ((cs.dropWhile isJsTrimWs).reverse.dropWhile isJsTrimWs).reverse

/-- JSON insignificant whitespace (the only four characters JSON.parse
skips between tokens). -/
def isJsonWs (c : Char) : Bool :=
  c = ' ' || c = '\t' || c = '\n' || c = '\r'

/-- Skip JSON whitespace. -/
def skipWs : List Char → List Char
  | c :: cs => if isJsonWs c then skipWs cs else c :: cs
  | [] => []

/-- Hexadecimal digit test for unicode escapes. -/
def isHexDig (c : Char) : Bool :=
  c.isDigit || ('a' ≤ c && c ≤ 'f') || ('A' ≤ c && c ≤ 'F')

/-- Recognize the remainder of a JSON string after the opening quote,
returning the input after the closing quote (JSON grammar: escapes
for quote, backslash, slash, b, f, n, r, t, uXXXX; unescaped control
characters rejected). -/
def pStrBody : List Char → Option (List Char)
  | [] => none
  | '"' :: rest => some rest
  | '\\' :: esc :: rest =>
      if esc = '"' || esc = '\\' || esc = '/' || esc = 'b' || esc = 'f' ||
         esc = 'n' || esc = 'r' || esc = 't' then pStrBody rest
      else if esc = 'u' then
        match rest with
        | h1 :: h2 :: h3 :: h4 :: rest2 =>
            if isHexDig h1 && isHexDig h2 && isHexDig h3 && isHexDig h4
            then pStrBody rest2 else none
        | _ => none
      else none
  | c :: rest => if c.toNat < 32 then none else pStrBody rest

/-- Drop a maximal run of decimal digits. -/
def dropDigits : List Char → List Char
  | c :: rest => if c.isDigit then dropDigits rest else c :: rest
  | [] => []

/-- Recognize one or more decimal digits. -/
def pDigits1 : List Char → Option (List Char)
  | c :: rest => if c.isDigit then some (dropDigits rest) else none
  | [] => none

/-- Recognize the integer part of a JSON number: 0, or a nonzero digit
followed by digits. -/
def pIntPart : List Char → Option (List Char)
  | '0' :: rest => some rest
  | c :: rest => if c.isDigit then some (dropDigits rest) else none
  | [] => none

/-- Recognize an optional JSON fraction part. -/
def pFrac : List Char → Option (List Char)
  | '.' :: rest => pDigits1 rest
  | cs => some cs

/-- Recognize an optional JSON exponent part. -/
def pExp : List Char → Option (List Char)
  | c :: rest =>
      if c = 'e' || c = 'E' then
        match rest with
        | s :: rest2 => if s = '+' || s = '-' then pDigits1 rest2 else pDigits1 rest
        | [] => none
      else some (c :: rest)
  | [] => some []

/-- Recognize a JSON number. -/
def pNum (cs : List Char) : Option (List Char) :=
  let cs' := match cs with
             | '-' :: rest => rest
             | _ => cs
  (pIntPart cs').bind pFrac |>.bind pExp

mutual

/-- Recognize one JSON value (grammar of ECMAScript JSON.parse),
returning the unconsumed remainder; the fuel bounds nesting and is
decremented only after consuming at least one character, so an initial
fuel of input length + 1 never runs out on real input. -/
def pVal : ℕ → List Char → Option (List Char)
  | 0, _ => none
  | fuel + 1, cs =>
      match skipWs cs with
      | 'n' :: 'u' :: 'l' :: 'l' :: rest => some rest
      | 't' :: 'r' :: 'u' :: 'e' :: rest => some rest
      | 'f' :: 'a' :: 'l' :: 's' :: 'e' :: rest => some rest
      | '"' :: rest => pStrBody rest
      | '\x7b' :: rest => pObjRest fuel rest true
      | '[' :: rest => pArrRest fuel rest true
      | cs' => pNum cs'

/-- Recognize the members of a JSON object after the opening brace
(allowEnd: a closing brace is legal immediately, i.e. no comma was just
consumed). -/
def pObjRest : ℕ → List Char → Bool → Option (List Char)
  | 0, _, _ => none
  | fuel + 1, cs, allowEnd =>
      match skipWs cs with
      | '\x7d' :: rest => if allowEnd then some rest else none
      | '"' :: rest => do
          let afterKey ← pStrBody rest
          match skipWs afterKey with
          | ':' :: afterColon => do
              let afterVal ← pVal fuel afterColon
              match skipWs afterVal with
              | '\x7d' :: r => some r
              | ',' :: r => pObjRest fuel r false
              | _ => none
          | _ => none
      | _ => none

/-- Recognize the elements of a JSON array after the opening bracket. -/
def pArrRest : ℕ → List Char → Bool → Option (List Char)
  | 0, _, _ => none
  | fuel + 1, cs, allowEnd =>
      match skipWs cs with
      | ']' :: rest => if allowEnd then some rest else none
      | cs' => do
          let afterVal ← pVal fuel cs'
          match skipWs afterVal with
          | ']' :: r => some r
          | ',' :: r => pArrRest fuel r false
          | _ => none

end

/-- Model of ECMAScript JSON.parse restricted to success or failure: the
text is valid JSON iff one value parses and only whitespace remains. -/
def jsonOkL (cs : List Char) : Bool :=
  match pVal (cs.length + 1) cs with
  | some rest => rest.all isJsonWs
  | none => false

/-- JavaScript String.lastIndexOf for a single character. -/
def lastIdxOf (c : Char) (cs : List Char) : Option ℕ :=
  (charIdx c cs.reverse).map (fun i => cs.length - 1 - i)

/-- The slice raw.slice(start, end + 1) the recovery path of
triageMessage extracts, where start is the first brace and end the last
(geminiService lines 67-70); none when either brace is missing. -/
def recoverSlice (cs : List Char) : Option (List Char) :=
  match charIdx '\x7b' cs, lastIdxOf '\x7d' cs with
  | some s, some e => some ((cs.drop s).take (e + 1 - s))
  | _, _ => none

/-- The response-parsing phase of triageMessage (geminiService
lines 63-74): JSON.parse(raw.trim()); on failure, one recovery attempt
on the first-brace-to-last-brace slice; if a brace is missing the
explicit parse error is thrown, and if the recovery parse also fails
that exception propagates. -/
def parseTriageText (raw : String) : Except String Unit :=
  if jsonOkL (jsTrim raw.toList) then Except.ok ()
  else
    match recoverSlice raw.toList with
    | some sl => if jsonOkL sl then Except.ok () else Except.error "recovery JSON.parse threw"
    | none => Except.error "Could not parse JSON response"

/-- Account tier enumeration (types.ts). -/
inductive AccountTier where
  | Free
  | Pro
  | Enterprise
deriving DecidableEq

/-- TriageInput (types.ts): the structured triage request input.  The
optional use_search flag is modelled as Bool, since the code only tests
its truthiness and undefined is falsy. -/
structure TriageInput where
  customer_message : String
  account_tier : AccountTier
  recent_activity_summary : String
  use_search : Bool
deriving DecidableEq

/-- The processedInput normalization of triageMessage (geminiService
lines 31-34): recent_activity_summary is trimmed and, if the result is
empty (JavaScript falsy), replaced by the sentinel; all other fields
are spread through unchanged. -/
def processTriageInput (i : TriageInput) : TriageInput :=
  { i with recent_activity_summary :=
      let t := String.mk (jsTrim i.recent_activity_summary.toList)
      if t = "" then "no recent changes" else t }

/-- A grounding citation attached to a triage result (types.ts). -/
structure GroundingSource where
  title : String
  uri : String
deriving DecidableEq

/-- The web field of a grounding chunk in the backend response: an
optional title and a URI. -/
structure GroundingWeb where
  title : Option String
  uri : String
deriving DecidableEq

/-- One grounding chunk of the backend response; chunks without a web
field are skipped by the extraction loop. -/
structure GroundingChunk where
  web : Option GroundingWeb
deriving DecidableEq

/-- One iteration of the grounding extraction loop (geminiService
lines 79-86): a chunk contributes a source iff it has a web field; a
missing or empty title falls back to the string Source. -/
def chunkSource (c : GroundingChunk) : Option GroundingSource :=
  match c.web with
  | some w =>
      some { title := match w.title with
                      | some t => if t = "" then "Source" else t
                      | none => "Source",
             uri := w.uri }
  | none => none

/-- The grounding_sources list triageMessage attaches to its result
(geminiService lines 76-89): starts empty and is filled only when the
input's use_search flag is set and the response carries a
groundingChunks list. -/
def buildGroundingSources (use_search : Bool)
    (chunks : Option (List GroundingChunk)) : List GroundingSource :=
  if use_search then
    match chunks with
    | some cs => cs.filterMap chunkSource
    | none => []
  else []

/-- One transcript-log entry (types.ts LiveTranscription). -/
structure LiveTranscription where
  text : String
  isUser : Bool
deriving DecidableEq

/-- The post-teardown auto-triage of stopLiveTriage (App.tsx
lines 162-174): if the transcript log is nonempty, the user-attributed
entries are space-joined in order; if that text does not trim to empty,
exactly one triage request is made whose customer_message is the joined
text, every other field taken from the last form input.  The result is
the input of that single request, or none when no request is made. -/
def stopTriageRequest (input : TriageInput) (log : List LiveTranscription) :
    Option TriageInput :=
  if log.length > 0 then
    let fullTranscript :=
      " ".intercalate ((log.filter (fun t => t.isUser)).map (fun t => t.text))
    if jsTrim fullTranscript.toList ≠ [] then
      some { input with customer_message := fullTranscript }
    else none
  else none

theorem charSextet_sextetChar (n : ℕ) (h : n < 64) :
    charSextet (sextetChar n) = some n := by
  have hall : ∀ m : Fin 64, charSextet (sextetChar m.val) = some m.val := by decide
  exact hall ⟨n, h⟩

theorem sextetChar_ne_pad (n : ℕ) : sextetChar n ≠ '=' := by
  rcases Nat.lt_or_ge n 64 with h | h
  · have hall : ∀ m : Fin 64, sextetChar m.val ≠ '=' := by decide
    exact hall ⟨n, h⟩
  · have hlen : base64Alphabet.length = 64 := by decide
    unfold sextetChar
    rw [List.getD_eq_default]
    · decide
    · omega

theorem bytesToInt16s_int16ToBytes (v : ℤ) (hlo : -32768 ≤ v) (hhi : v < 32768)
    (bs : List ℕ) :
    bytesToInt16s (int16ToBytes v ++ bs) = v :: bytesToInt16s bs := by
  have hnn : (0 : ℤ) ≤ v % 65536 := Int.emod_nonneg v (by norm_num)
  have hu : ((v % 65536).toNat : ℤ) = v % 65536 := Int.toNat_of_nonneg hnn
  simp only [int16ToBytes, List.cons_append, List.nil_append, bytesToInt16s]
  refine List.cons_eq_cons.mpr ⟨?_, rfl⟩
  split <;> push_cast <;> omega

theorem toInt16_range (x : ℚ) : -32768 ≤ toInt16 x ∧ toInt16 x < 32768 := by
  unfold toInt16 wrap16
  constructor <;> omega

theorem bytesToInt16s_pcmBytesOf (s : List ℚ) :
    bytesToInt16s (pcmBytesOf s) = s.map toInt16 := by
  induction s with
  | nil => rfl
  | cons x s ih =>
      have hr := toInt16_range x
      simp only [pcmBytesOf, List.map_cons, List.flatten_cons] at *
      rw [bytesToInt16s_int16ToBytes (toInt16 x) hr.1 hr.2]
      rw [ih]

theorem decodeBase64_encodeBase64 (b : List ℕ) (h : ∀ x ∈ b, x < 256) :
    decodeBase64 (encodeBase64 b) = some b := by
  induction b using encodeBase64.induct with
  | case1 b0 b1 b2 rest ih =>
      have hb0 : b0 < 256 := h b0 (by simp)
      have hb1 : b1 < 256 := h b1 (by simp)
      have hb2 : b2 < 256 := h b2 (by simp)
      have ih' := ih (fun x hx => h x (by simp [hx]))
      simp only [encodeBase64, decodeBase64]
      rw [charSextet_sextetChar _ (by omega), charSextet_sextetChar _ (by omega),
          charSextet_sextetChar _ (by omega), charSextet_sextetChar _ (by omega)]
      simp only [bind, Option.bind]
      rw [if_neg (sextetChar_ne_pad _), if_neg (sextetChar_ne_pad _), ih']
      simp only [Option.pure_def, Option.some_inj, List.cons_append, List.nil_append,
        List.cons_eq_cons, and_true]
      refine ⟨by omega, by omega, by omega⟩
  | case2 b0 b1 =>
      have hb0 : b0 < 256 := h b0 (by simp)
      have hb1 : b1 < 256 := h b1 (by simp)
      simp only [encodeBase64, decodeBase64]
      rw [charSextet_sextetChar _ (by omega), charSextet_sextetChar _ (by omega),
          charSextet_sextetChar _ (by omega)]
      simp only [bind, Option.bind]
      rw [if_neg (sextetChar_ne_pad _)]
      simp only [if_true, Option.pure_def, Option.some_inj, List.cons_eq_cons, and_true]
      refine ⟨by omega, by omega⟩
  | case3 b0 =>
      have hb0 : b0 < 256 := h b0 (by simp)
      simp only [encodeBase64, decodeBase64]
      rw [charSextet_sextetChar _ (by omega), charSextet_sextetChar _ (by omega)]
      simp only [bind, Option.bind]
      simp only [if_true, and_self, Option.pure_def, Option.some_inj, List.cons_eq_cons,
        and_true, List.nil_eq]
      omega
  | case4 => rfl

theorem int16ToBytes_lt (v : ℤ) : ∀ x ∈ int16ToBytes v, x < 256 := by
  intro x hx
  have hnn : (0 : ℤ) ≤ v % 65536 := Int.emod_nonneg v (by norm_num)
  have hub : v % 65536 < 65536 := Int.emod_lt_of_pos v (by norm_num)
  simp only [int16ToBytes, List.mem_cons, List.not_mem_nil, or_false] at hx
  rcases hx with h | h <;> omega

theorem pcmBytesOf_lt (s : List ℚ) : ∀ x ∈ pcmBytesOf s, x < 256 := by
  intro x hx
  simp only [pcmBytesOf, List.mem_flatten, List.mem_map] at hx
  obtain ⟨l, ⟨y, _, rfl⟩, hxl⟩ := hx
  exact int16ToBytes_lt _ x hxl

theorem range_map_getD (l : List ℤ) (f : ℤ → ℚ) :
    (List.range l.length).map (fun i => f (l.getD i 0)) = l.map f := by
  induction l with
  | nil => rfl
  | cons a t ih =>
      rw [List.length_cons, List.range_succ_eq_map, List.map_cons, List.map_map]
      simp only [Function.comp_def, List.getD_cons_zero, List.getD_cons_succ,
        List.map_cons]
      exact congrArg _ ih

theorem decodeAudioData_mono (bytes : List ℕ) :
    decodeAudioData bytes 1 =
      [(bytesToInt16s bytes).map (fun v => ((v : ℤ) : ℚ) / 32768)] := by
  unfold decodeAudioData
  have h1 : List.range 1 = [0] := rfl
  rw [h1, List.map_cons, List.map_nil, Nat.div_one]
  simp only [mul_one, add_zero]
  exact congrArg (fun l => [l])
    (range_map_getD (bytesToInt16s bytes) (fun v => ((v : ℤ) : ℚ) / 32768))

theorem truncQ_bounds (x : ℚ) (h1 : -1 ≤ x) (h2 : x < 1) :
    -32768 ≤ truncQ (x * 32768) ∧ truncQ (x * 32768) < 32768 := by
  unfold truncQ
  rcases le_or_lt 0 (x * 32768) with hc | hc
  · rw [if_pos hc]
    constructor
    · have : (0 : ℤ) ≤ ⌊x * 32768⌋ := Int.floor_nonneg.mpr hc
      omega
    · rw [Int.floor_lt]
      push_cast
      nlinarith
  · rw [if_neg (not_le.mpr hc)]
    constructor
    · have hq : (-32768 : ℚ) ≤ x * 32768 := by nlinarith
      have hcl := Int.le_ceil (x * 32768)
      have : ((-32768 : ℤ) : ℚ) ≤ (⌈x * 32768⌉ : ℚ) := by push_cast; linarith
      exact_mod_cast this
    · have : ⌈x * 32768⌉ ≤ 0 := Int.ceil_le.mpr (by exact_mod_cast le_of_lt hc)
      omega

theorem truncQ_err (q : ℚ) : |q - (truncQ q : ℚ)| ≤ 1 := by
  unfold truncQ
  rcases le_or_lt 0 q with hc | hc
  · rw [if_pos hc]
    rw [abs_of_nonneg (by linarith [Int.floor_le q])]
    linarith [Int.sub_one_lt_floor q]
  · rw [if_neg (not_le.mpr hc)]
    rw [abs_of_nonpos (by linarith [Int.le_ceil q])]
    linarith [Int.ceil_lt_add_one q]

theorem toInt16_no_wrap (x : ℚ) (h1 : -1 ≤ x) (h2 : x < 1) :
    toInt16 x = truncQ (x * 32768) := by
  have hb := truncQ_bounds x h1 h2
  unfold toInt16 wrap16
  omega

theorem sample_err (x : ℚ) (h1 : -1 ≤ x) (h2 : x < 1) :
    |x - ((toInt16 x : ℤ) : ℚ) / 32768| ≤ 1 / 32768 := by
  rw [toInt16_no_wrap x h1 h2]
  have he := truncQ_err (x * 32768)
  rw [show x - ((truncQ (x * 32768) : ℤ) : ℚ) / 32768
        = (x * 32768 - ((truncQ (x * 32768) : ℤ) : ℚ)) / 32768 by ring]
  rw [abs_div, abs_of_pos (by norm_num : (0 : ℚ) < 32768)]
  gcongr

/-- Claim C9: for every byte sequence b (bytes of a Uint8Array, hence
below 256), decoding the transport text produced by encoding b yields
exactly b: decodeBase64 (encodeBase64 b) = b. -/
theorem claim_C9_base64_round_trip (b : List ℕ) (h : ∀ x ∈ b, x < 256) :
    decodeBase64 (encodeBase64 b) = some b :=
  decodeBase64_encodeBase64 b h

/-- Witness for claim C9 at the concrete byte sequence [0,127,255,10,66]. -/
theorem claim_C9_witness :
    decodeBase64 (encodeBase64 [0, 127, 255, 10, 66]) = some [0, 127, 255, 10, 66] :=
  claim_C9_base64_round_trip [0, 127, 255, 10, 66] (by decide)

/-- Claim C10: createPcmBlob converts each sample x by computing
x * 32768 and coercing to 16-bit with wrap-around (modulo 2^16)
semantics rather than clamping: every sample in [-1, 1) is truncated
toward zero into range, while a sample of exactly 1 wraps to -32768. -/
theorem claim_C10_wraparound (x : ℚ) :
    toInt16 x = wrap16 (truncQ (x * 32768)) ∧
    (-1 ≤ x → x < 1 →
      toInt16 x = truncQ (x * 32768) ∧ -32768 ≤ toInt16 x ∧ toInt16 x < 32768) ∧
    toInt16 1 = -32768 := by
  refine ⟨rfl, ?_, by norm_num [toInt16, truncQ, wrap16]⟩
  intro h1 h2
  have hnw := toInt16_no_wrap x h1 h2
  have hb := truncQ_bounds x h1 h2
  exact ⟨hnw, by omega, by omega⟩

/-- Witness for claim C10 at the concrete in-range sample 1/2. -/
theorem claim_C10_witness :
    toInt16 (1 / 2) = truncQ ((1 / 2 : ℚ) * 32768) ∧
    -32768 ≤ toInt16 (1 / 2) ∧ toInt16 (1 / 2) < 32768 :=
  (claim_C10_wraparound (1 / 2)).2.1 (by norm_num) (by norm_num)

/-- Counterexample to claim C1 as stated: the sample sequence [1] lies
in [-1, 1], yet its wire round trip decodes to [-1], an error of 2,
far above 1/32768 - full-scale positive input wraps to full-scale
negative output. -/
theorem claim_C1_cex :
    (∀ x ∈ [(1 : ℚ)], -1 ≤ x ∧ x ≤ 1) ∧
    ¬ List.Forall₂ (fun a b => |a - b| ≤ 1 / 32768) [(1 : ℚ)]
        (audioRoundTrip [(1 : ℚ)]) := by
  have ht : toInt16 1 = -32768 := by norm_num [toInt16, truncQ, wrap16]
  have hb : pcmBytesOf [(1 : ℚ)] = [0, 128] := by
    simp only [pcmBytesOf, List.map_cons, List.map_nil, ht]
    decide
  have hrt : audioRoundTrip [(1 : ℚ)] = [-1] := by
    unfold audioRoundTrip
    simp only [createPcmBlob]
    rw [hb, decodeBase64_encodeBase64 _ (by decide), Option.getD_some,
        decodeAudioData_mono]
    have hi : bytesToInt16s [0, 128] = [-32768] := by decide
    rw [hi]
    norm_num
  refine ⟨by decide, ?_⟩
  rw [hrt]
  intro hcon
  have := (List.forall₂_cons.mp hcon).1
  norm_num at this

/-- Claim C1 amended: for every sample sequence with all samples in
[-1, 1) (full-scale 1.0 excluded, as the wrap-around counterexample
forces), decoding the wire bytes produced by encoding yields a sequence
of the same length whose samples each differ by at most 1/32768. -/
theorem claim_C1_round_trip (s : List ℚ) (h : ∀ x ∈ s, -1 ≤ x ∧ x < 1) :
    List.Forall₂ (fun a b => |a - b| ≤ 1 / 32768) s (audioRoundTrip s) := by
  unfold audioRoundTrip
  simp only [createPcmBlob]
  rw [decodeBase64_encodeBase64 _ (pcmBytesOf_lt s), Option.getD_some,
      decodeAudioData_mono, List.headD_cons, bytesToInt16s_pcmBytesOf,
      List.map_map]
  rw [List.forall₂_map_right_iff]
  refine List.forall₂_same.mpr (fun x hx => ?_)
  simp only [Function.comp_apply]
  exact sample_err x (h x hx).1 (h x hx).2

/-- Witness for amended claim C1 at the concrete sequence [1/3, -1/2]. -/
theorem claim_C1_witness :
    List.Forall₂ (fun a b => |a - b| ≤ 1 / 32768) [(1 / 3 : ℚ), -1 / 2]
      (audioRoundTrip [(1 / 3 : ℚ), -1 / 2]) :=
  claim_C1_round_trip [(1 / 3 : ℚ), -1 / 2]
    (by intro x hx; fin_cases hx <;> norm_num)

theorem chunkDuration_nonneg (bytes : List ℕ) : 0 ≤ chunkDuration bytes := by
  unfold chunkDuration
  positivity

theorem schedRun_eq_schedStarts (chunks : List (ℚ × List ℕ)) :
    ∀ s : SchedulerState, schedRun s chunks = schedStarts s.nextStartTime chunks := by
  induction chunks with
  | nil => intro s; rfl
  | cons c rest ih =>
      intro s
      obtain ⟨t, bytes⟩ := c
      simp only [schedRun, schedStarts, scheduleChunk]
      rw [ih]

theorem schedStarts_head_ge (st : ℚ) (chunks : List (ℚ × List ℕ)) :
    ∀ p ∈ (schedStarts st chunks).head?, st ≤ p.1 := by
  cases chunks with
  | nil => simp [schedStarts]
  | cons c rest =>
      obtain ⟨t, bytes⟩ := c
      simp [schedStarts, le_max_left]

theorem schedStarts_chain_le (chunks : List (ℚ × List ℕ)) :
    ∀ st : ℚ, List.Chain' (fun a b => a.1 ≤ b.1) (schedStarts st chunks) := by
  induction chunks with
  | nil => intro st; simp [schedStarts]
  | cons c rest ih =>
      intro st
      obtain ⟨t, bytes⟩ := c
      rw [schedStarts]
      refine List.chain'_cons'.mpr ⟨?_, ih _⟩
      intro p hp
      have h1 := schedStarts_head_ge (max st t + chunkDuration bytes) rest p hp
      have h2 := chunkDuration_nonneg bytes
      calc max st t ≤ max st t + chunkDuration bytes := by linarith
        _ ≤ p.1 := h1

theorem schedStarts_chain_gapless (chunks : List (ℚ × List ℕ)) :
    ∀ st prevStart prevDur : ℚ, st = prevStart + prevDur →
      notStalledFrom st chunks = true →
      List.Chain' (fun a b => b.1 = a.1 + a.2)
        ((prevStart, prevDur) :: schedStarts st chunks) := by
  induction chunks with
  | nil => intro st p d hst hns; simp [schedStarts]
  | cons c rest ih =>
      intro st p d hst hns
      obtain ⟨t, bytes⟩ := c
      simp only [notStalledFrom, Bool.and_eq_true, decide_eq_true_eq] at hns
      obtain ⟨hts, hrest⟩ := hns
      have hmax : max st t = st := max_eq_left hts
      rw [schedStarts, hmax]
      rw [hmax] at hrest
      refine List.chain'_cons.mpr ⟨by simpa using hst, ?_⟩
      exact ih (st + chunkDuration bytes) st (chunkDuration bytes) rfl hrest

/-- Claim C2: over any run of scheduleChunk calls with no interrupt, the
assigned start times are non-decreasing; and when arrivals are not
stalled (each later chunk arrives before the cursor), every start time
equals the previous start time plus the previous buffer's duration. -/
theorem claim_C2_scheduler (s : SchedulerState) (chunks : List (ℚ × List ℕ)) :
    List.Chain' (fun a b => a.1 ≤ b.1) (schedRun s chunks) ∧
    (arrivalsNotStalled s.nextStartTime chunks = true →
      List.Chain' (fun a b => b.1 = a.1 + a.2) (schedRun s chunks)) := by
  rw [schedRun_eq_schedStarts]
  refine ⟨schedStarts_chain_le chunks s.nextStartTime, ?_⟩
  intro hns
  cases chunks with
  | nil => simp [schedStarts]
  | cons c rest =>
      obtain ⟨t, bytes⟩ := c
      simp only [arrivalsNotStalled] at hns
      rw [schedStarts]
      exact schedStarts_chain_gapless rest _ _ _ rfl hns

/-- Witness for claim C2: two back-to-back chunks on a fresh scheduler,
the second arriving at device time 0 before the first finishes. -/
theorem claim_C2_witness :
    List.Chain' (fun a b => a.1 ≤ b.1)
      (schedRun ⟨0, [], [], 0⟩ [(0, [0, 0]), (0, [0, 0, 0, 0])]) ∧
    List.Chain' (fun a b => b.1 = a.1 + a.2)
      (schedRun ⟨0, [], [], 0⟩ [(0, [0, 0]), (0, [0, 0, 0, 0])]) :=
  ⟨(claim_C2_scheduler ⟨0, [], [], 0⟩ [(0, [0, 0]), (0, [0, 0, 0, 0])]).1,
   (claim_C2_scheduler ⟨0, [], [], 0⟩ [(0, [0, 0]), (0, [0, 0, 0, 0])]).2
     (by norm_num [arrivalsNotStalled, notStalledFrom, chunkDuration, bytesToInt16s])⟩

/-- Claim C3: after interrupt, every buffer that was active has been
stopped, the active set is empty, the cursor is reset to zero (this also
holds when the active set was already empty, where the stopped set is
unchanged), and the next scheduled chunk anchors at the device's current
time. -/
theorem claim_C3_interrupt (s : SchedulerState) (t : ℚ) (bytes : List ℕ) :
    (interrupt s).activeBuffers = [] ∧
    (interrupt s).nextStartTime = 0 ∧
    (interrupt s).stoppedBuffers = s.stoppedBuffers ++ s.activeBuffers ∧
    (∀ h ∈ s.activeBuffers, h ∈ (interrupt s).stoppedBuffers) ∧
    (0 ≤ t → (scheduleChunk t bytes (interrupt s)).1 = t) := by
  refine ⟨rfl, rfl, rfl, ?_, ?_⟩
  · intro h hh
    simp only [interrupt, List.mem_append]
    exact Or.inr hh
  · intro ht
    simp only [scheduleChunk, interrupt]
    exact max_eq_right ht

/-- Witness for claim C3: an interrupt on a scheduler with one active
buffer and cursor 5, followed by a chunk at device time 2. -/
theorem claim_C3_witness :
    (scheduleChunk 2 [] (interrupt ⟨5, [3], [], 7⟩)).1 = 2 :=
  (claim_C3_interrupt ⟨5, [3], [], 7⟩ 2 []).2.2.2.2 (by norm_num)

/-- Claim C5: the release phase of stopLiveTriage nulls every ref, so a
second call performs no release action and leaves the state unchanged
(idempotent, no error and no double release); the actions of one call
follow the order stream tracks, input context, output context, session,
and each action occurs exactly when its resource was held. -/
theorem claim_C5_stop_idempotent (r : LiveRefs) :
    (stopLiveRelease r).1 = ⟨false, false, false⟩ ∧
    (stopLiveRelease (stopLiveRelease r).1).2 = [] ∧
    (stopLiveRelease (stopLiveRelease r).1).1 = (stopLiveRelease r).1 ∧
    (stopLiveRelease r).2.Sublist
      [ReleaseAction.stopTracks, ReleaseAction.closeInputCtx,
       ReleaseAction.closeOutputCtx, ReleaseAction.closeSession] ∧
    (ReleaseAction.stopTracks ∈ (stopLiveRelease r).2 ↔ r.stream = true) ∧
    (ReleaseAction.closeInputCtx ∈ (stopLiveRelease r).2 ↔ r.audioContexts = true) ∧
    (ReleaseAction.closeOutputCtx ∈ (stopLiveRelease r).2 ↔ r.audioContexts = true) ∧
    (ReleaseAction.closeSession ∈ (stopLiveRelease r).2 ↔ r.session = true) := by
  obtain ⟨a, b, c⟩ := r
  cases a <;> cases b <;> cases c <;> decide

/-- Counterexample to claim C4 as stated: a transcript log holding one
user-attributed entry whose text is empty triggers no triage request at
all, because the code additionally guards on the joined transcript being
non-whitespace; the claim demands exactly one request. -/
theorem claim_C4_cex :
    (∃ e ∈ [LiveTranscription.mk "" true], e.isUser = true) ∧
    stopTriageRequest ⟨"", AccountTier.Free, "", false⟩
      [LiveTranscription.mk "" true] = none := by
  exact ⟨⟨⟨"", true⟩, by simp, rfl⟩, rfl⟩

/-- Claim C4 amended: for every session whose transcript log's
user-attributed entries space-join to text that does not trim to empty,
stopping triggers exactly one triage request whose customer message is
that joined text, in log order, all other input fields reused as last
set.  (The counterexample forces the non-whitespace qualification.) -/
theorem claim_C4_auto_triage (input : TriageInput) (log : List LiveTranscription)
    (h : jsTrim (" ".intercalate
        ((log.filter (fun t => t.isUser)).map (fun t => t.text))).toList ≠ []) :
    stopTriageRequest input log =
      some { input with
             customer_message := " ".intercalate
               ((log.filter (fun t => t.isUser)).map (fun t => t.text)) } := by
  have hlog : log ≠ [] := by
    intro he
    subst he
    exact h rfl
  unfold stopTriageRequest
  rw [if_pos (List.length_pos.mpr hlog), if_pos h]

/-- Witness for amended claim C4 at the concrete three-entry scenario
log: the single request carries the two user entries space-joined. -/
theorem claim_C4_witness :
    stopTriageRequest ⟨"", AccountTier.Free, "", false⟩
      [⟨"I can\x27t log in", true⟩, ⟨"I see, let me help", false⟩,
       ⟨"It just times out", true⟩] =
      some ⟨"I can\x27t log in It just times out", AccountTier.Free, "", false⟩ := by
  rw [claim_C4_auto_triage ⟨"", AccountTier.Free, "", false⟩ _ (by decide)]
  rfl

/-- Counterexample to claim C6 as stated: the response text true has no
brace at all, yet triageMessage raises no parse error, because
JSON.parse accepts the bare literal directly. -/
theorem claim_C6_cex :
    charIdx '\x7b' "true".toList = none ∧
    lastIdxOf '\x7d' "true".toList = none ∧
    parseTriageText "true" = Except.ok () := by
  exact ⟨rfl, rfl, rfl⟩

/-- Claim C6 amended: the concrete noisy wrapping of a valid object does
not parse directly, and the single recovery attempt extracts the
first-brace-to-last-brace slice and parses it successfully; any text
that does not parse directly as JSON and lacks a leading or trailing
brace fails with the parse error.  (The counterexample forces the
restriction to text that does not already parse as JSON.) -/
theorem claim_C6_recovery :
    parseTriageText "noise\x7b\"summary\":\"x\"\x7dtrailing" = Except.ok () ∧
    recoverSlice "noise\x7b\"summary\":\"x\"\x7dtrailing".toList =
      some "\x7b\"summary\":\"x\"\x7d".toList ∧
    jsonOkL (jsTrim "noise\x7b\"summary\":\"x\"\x7dtrailing".toList) = false ∧
    (∀ raw : String, jsonOkL (jsTrim raw.toList) = false →
      recoverSlice raw.toList = none →
      parseTriageText raw = Except.error "Could not parse JSON response") := by
  refine ⟨rfl, rfl, rfl, ?_⟩
  intro raw h1 h2
  unfold parseTriageText
  rw [h1, h2]
  rfl

/-- Witness for amended claim C6 at the brace-free non-JSON text x. -/
theorem claim_C6_witness :
    parseTriageText "x" = Except.error "Could not parse JSON response" :=
  claim_C6_recovery.2.2.2 "x" rfl rfl

/-- Claim C7: the request normalization of triageMessage replaces an
empty recent_activity_summary by the sentinel no recent changes and
carries every other field through unchanged; the concrete claimed input
is normalized exactly so. -/
theorem claim_C7_normalize (i : TriageInput) :
    (i.recent_activity_summary = "" →
      (processTriageInput i).recent_activity_summary = "no recent changes") ∧
    (processTriageInput i).customer_message = i.customer_message ∧
    (processTriageInput i).account_tier = i.account_tier ∧
    (processTriageInput i).use_search = i.use_search ∧
    processTriageInput ⟨"App crashes on CSV upload", AccountTier.Pro, "", false⟩ =
      ⟨"App crashes on CSV upload", AccountTier.Pro, "no recent changes", false⟩ := by
  refine ⟨?_, rfl, rfl, rfl, rfl⟩
  intro h
  unfold processTriageInput
  rw [h]
  rfl

/-- Witness for claim C7 at the concrete empty-summary input. -/
theorem claim_C7_witness :
    (processTriageInput
        ⟨"App crashes on CSV upload", AccountTier.Pro, "", false⟩).recent_activity_summary =
      "no recent changes" :=
  (claim_C7_normalize ⟨"App crashes on CSV upload", AccountTier.Pro, "", false⟩).1 rfl

/-- Claim C8: the result of triageMessage carries grounding sources only
when the search flag was set and the response contained citation chunks
with a web field; with the flag unset the list is always empty. -/
theorem claim_C8_grounding (us : Bool) (chunks : Option (List GroundingChunk)) :
    (us = false → buildGroundingSources us chunks = []) ∧
    (buildGroundingSources us chunks ≠ [] →
      us = true ∧ ∃ cs, chunks = some cs ∧ ∃ c ∈ cs, c.web ≠ none) := by
  constructor
  · intro h
    subst h
    rfl
  · intro h
    cases us with
    | false => exact absurd rfl h
    | true =>
        refine ⟨rfl, ?_⟩
        cases chunks with
        | none => exact absurd rfl h
        | some cs =>
            refine ⟨cs, rfl, ?_⟩
            by_contra hall
            push_neg at hall
            apply h
            simp only [buildGroundingSources, if_true]
            rw [List.filterMap_eq_nil_iff]
            intro c hc
            have hw := hall c hc
            simp [chunkSource, hw]

/-- Witness for claim C8: the flag unset gives no sources, and a
response with one cited web chunk under the flag gives the only way to a
nonempty list. -/
theorem claim_C8_witness :
    buildGroundingSources false (some [⟨some ⟨some "t", "u"⟩⟩]) = [] ∧
    (true = true ∧ ∃ cs,
      (some [GroundingChunk.mk (some ⟨some "t", "u"⟩)] :
        Option (List GroundingChunk)) = some cs ∧ ∃ c ∈ cs, c.web ≠ none) :=
  ⟨(claim_C8_grounding false (some [⟨some ⟨some "t", "u"⟩⟩])).1 rfl,
   (claim_C8_grounding true (some [⟨some ⟨some "t", "u"⟩⟩])).2 (by decide)⟩
